import Mathlib

/-!
# Verification of the Neptune checkpoint-artifact synchronizer

Shallow embedding of `pytorch_lightning/loggers/neptune.py`, restricted to the
checkpoint-synchronization bookkeeping: `NeptuneLogger.after_save_checkpoint`
and its helpers `_get_full_model_name`, `_get_full_model_names_from_exp_structure`
and `_dict_paths`.

The remote experiment store (`self.experiment`, the external Neptune client) is
not part of the repository; following the spec's collaborator contract (§6) it
is represented by the set (here: duplicate-free list) of its leaf paths, with
`upload` inserting a leaf, `del` removing it, `exists` checking for a sub-path
and `get_structure` returning the current structure.  Every store call is
recorded in an operation trace, and a failure-injection point (`failAt`)
models a remote-store operation raising an error.

Python strings are modelled as Lean `String`s; `str.startswith` and slicing
`s[n:]` act on the codepoint sequence `String.data`.
-/

namespace NeptuneSync

/-- Python `s.startswith(pre)`, over the codepoint sequence. -/
def startswith (s pre : String) : Bool :=
  pre.data.isPrefixOf s.data

/-- Python slicing `s[n:]` (drop the first `n` codepoints). -/
def strDrop (s : String) (n : Nat) : String :=
  ⟨s.data.drop n⟩

/-- Python `len(s)` (number of codepoints). -/
def strLen (s : String) : Nat :=
  s.data.length

/-- Errors surfacing from `after_save_checkpoint`: the `ValueError` raised by
`_get_full_model_name` for an ill-rooted path, or an error raised by the
remote store during its `n`-th operation (failure injection). -/
inductive NError where
  | invalidPath (msg : String)
  | storeError (n : Nat)
deriving DecidableEq, Repr

/-- `NeptuneLogger._get_full_model_name(model_path, checkpoint_callback)`:
strip `checkpoint_callback.dirpath + "/"` from `model_path`, raising
`ValueError` when `model_path` does not start with that prefix. -/
def get_full_model_name (model_path : String) (dirpath : String) :
    Except String String :=
  let expected_model_path := dirpath ++ "/"
  if startswith model_path expected_model_path then
    .ok (strDrop model_path (strLen expected_model_path))
  else
    .error (model_path ++ " was expected to start with " ++ expected_model_path ++ ".")

/-- The short name of a validly rooted checkpoint path (value returned by
`_get_full_model_name` in the non-raising case). -/
def shortName (dirpath path : String) : String :=
  strDrop path (strLen (dirpath ++ "/"))

/-- The fields of `ModelCheckpoint` read by `after_save_checkpoint`.
`last_model_path = ""` and `best_model_path = ""` model the Python falsy
(absent) case; `best_k_models` lists the keys of the best-k dict in iteration
order (the scores are never read); `best_model_score` is the truthiness of the
score tensor (only its truthiness is tested before the metadata write). -/
structure ModelCheckpoint where
  dirpath : String
  last_model_path : String
  best_k_models : List String
  best_model_path : String
  best_model_score : Bool
deriving DecidableEq, Repr

/-- The fields of `NeptuneLogger` read by `after_save_checkpoint`:
`_log_model_checkpoints` and `_prefix` (default `"training"`). -/
structure NeptuneLogger where
  log_model_checkpoints : Bool
  prefix_str : String
deriving DecidableEq, Repr

/-- `self._construct_path_with_prefix(key)`: join with `LOGGER_JOIN_CHAR = "/"`,
starting with `_prefix` when it is truthy (nonempty). -/
def construct_path (lg : NeptuneLogger) (key : String) : String :=
  if lg.prefix_str = "" then key else lg.prefix_str ++ "/" ++ key

/-- One remote-store call made by `after_save_checkpoint`:
`experiment[path].upload(src)`, `del experiment[path]`,
`experiment.exists(path)`, `experiment.get_structure()`, or a plain field
assignment `experiment[path] = value`. -/
inductive StoreOp where
  | upload (path : String) (srcFile : String)
  | delete (path : String)
  | existsCheck (path : String)
  | getStructure
  | assign (path : String)
deriving DecidableEq, Repr

/-- Modelled from the spec: the external remote tree store (§6), represented
by the list of its leaf paths (`leaves`, duplicate-free when the initial list
is), together with the trace of store operations performed so far, the
injected failure point `failAt` (the store raises on its `failAt`-th
operation; `none` = no store operation fails) and the running operation
counter `opCount`. -/
structure RemoteState where
  leaves : List String
  trace : List StoreOp
  failAt : Option Nat
  opCount : Nat
deriving DecidableEq, Repr

/-- Effect of a store operation on the leaf set: `upload` and a field
assignment create the leaf at the given path (idempotent overwrite, §6),
`del` removes it, reads change nothing. -/
def applyOp (ls : List String) : StoreOp → List String
  | .upload p _ => ls.insert p
  | .delete p => ls.filter (fun l => decide (l ≠ p))
  | .existsCheck _ => ls
  | .getStructure => ls
  | .assign p => ls.insert p

/-- Perform one remote-store operation: raise the injected store error when
the failure point is reached (leaving the store untouched), otherwise apply
the operation's effect, log it, and advance the operation counter. -/
def runOp (r : RemoteState) (op : StoreOp) :
    Except (NError × RemoteState) RemoteState :=
  if r.failAt = some r.opCount then
    .error (.storeError r.opCount, r)
  else
    .ok { leaves := applyOp r.leaves op, trace := r.trace ++ [op],
          failAt := r.failAt, opCount := r.opCount + 1 }

/-- Modelled from the spec: `experiment.exists(path)` of the external store —
a sub-path exists when it is a leaf or some leaf lies strictly below it. -/
def existsPath (ls : List String) (p : String) : Bool :=
  ls.any (fun l => l = p || startswith l (p ++ "/"))

/-- Modelled from the spec: the value computed by
`_get_full_model_names_from_exp_structure(experiment.get_structure(), ns)`
over the leaf-set representation of the store — every leaf lying strictly
below `ns`, as a path relative to `ns` (each name once).  The faithfulness of
this reading of the source's nested-mapping traversal is established
separately on the tree model (`dict_paths` below). -/
def uploadedNamesUnder (ls : List String) (ns : String) : List String :=
  ((ls.filter (fun l => startswith l (ns ++ "/"))).map
    (fun l => strDrop l (strLen (ns ++ "/")))).dedup

/-- The `for key in checkpoint_callback.best_k_models.keys():` loop of
`after_save_checkpoint`: derive each key's short name (raising `ValueError`
on an ill-rooted key), add it to `file_names` and upload the file. -/
def uploadBestK (ns dirpath : String) (keys : List String)
    (file_names : Finset String) (r : RemoteState) :
    Except (NError × RemoteState) (Finset String × RemoteState) :=
  match keys with
  | [] => .ok (file_names, r)
  | key :: rest =>
    match get_full_model_name key dirpath with
    | .error msg => .error (.invalidPath msg, r)
    | .ok model_name =>
      match runOp r (.upload (ns ++ "/" ++ model_name) key) with
      | .error e => .error e
      | .ok r1 => uploadBestK ns dirpath rest (insert model_name file_names) r1

/-- The `# save last model` block of `after_save_checkpoint`: when
`last_model_path` is truthy, derive its short name, start `file_names` with
it and upload the file. -/
def saveLastModel (ns : String) (cb : ModelCheckpoint) (r : RemoteState) :
    Except (NError × RemoteState) (Finset String × RemoteState) :=
  if cb.last_model_path ≠ "" then
    match get_full_model_name cb.last_model_path cb.dirpath with
    | .error msg => .error (.invalidPath msg, r)
    | .ok model_last_name =>
      match runOp r (.upload (ns ++ "/" ++ model_last_name) cb.last_model_path) with
      | .error e => .error e
      | .ok r1 => .ok ({model_last_name}, r1)
  else .ok (∅, r)

/-- The `for file_to_drop in list(uploaded_model_names - file_names):` loop:
delete each stale entry under the namespace. -/
def deleteStale (ns : String) (files : List String) (r : RemoteState) :
    Except (NError × RemoteState) RemoteState :=
  match files with
  | [] => .ok r
  | f :: rest =>
    match runOp r (.delete (ns ++ "/" ++ f)) with
    | .error e => .error e
    | .ok r1 => deleteStale ns rest r1

/-- The `# remove old models logged to experiment ...` block: when the
namespace exists, enumerate the already-uploaded names from the experiment
tree and delete those not in `file_names`. -/
def removeStale (ns : String) (file_names : Finset String) (r : RemoteState) :
    Except (NError × RemoteState) RemoteState :=
  let ex := existsPath r.leaves ns
  match runOp r (.existsCheck ns) with
  | .error e => .error e
  | .ok r1 =>
    if ex then
      match runOp r1 .getStructure with
      | .error e => .error e
      | .ok r2 =>
        let uploaded_model_names := uploadedNamesUnder r2.leaves ns
        deleteStale ns
          (uploaded_model_names.filter (fun f => decide (f ∉ file_names))) r2
    else .ok r1

/-- The `# log best model path and best model score` block: assign
`best_model_path` and `best_model_score` under the prefix when truthy. -/
def logBestModelMeta (lg : NeptuneLogger) (cb : ModelCheckpoint)
    (r : RemoteState) : Except (NError × RemoteState) RemoteState :=
  match (if cb.best_model_path ≠ "" then
           runOp r (.assign (construct_path lg "model/best_model_path"))
         else .ok r) with
  | .error e => .error e
  | .ok r1 =>
    if cb.best_model_score then
      runOp r1 (.assign (construct_path lg "model/best_model_score"))
    else .ok r1

/-- `NeptuneLogger.after_save_checkpoint(checkpoint_callback)`: return at once
when `_log_model_checkpoints` is falsy; otherwise upload the last model (if
any) and the best-k models, collect their short names in `file_names`, delete
the previously uploaded names not in `file_names`, and record the best model
path and score.  An uncaught `ValueError` (ill-rooted path) or store error
aborts the remaining steps, leaving the store as it was at that point.  The
source's local variable `checkpoints_namespace` is inlined as
`construct_path lg "model/checkpoints"`. -/
def after_save_checkpoint (lg : NeptuneLogger) (cb : ModelCheckpoint)
    (r : RemoteState) : Except (NError × RemoteState) RemoteState :=
  if lg.log_model_checkpoints = false then .ok r else
  match saveLastModel (construct_path lg "model/checkpoints") cb r with
  | .error e => .error e
  | .ok (file_names, r1) =>
    match uploadBestK (construct_path lg "model/checkpoints") cb.dirpath
        cb.best_k_models file_names r1 with
    | .error e => .error e
    | .ok (file_names2, r2) =>
      match removeStale (construct_path lg "model/checkpoints") file_names2 r2 with
      | .error e => .error e
      | .ok r3 => logBestModelMeta lg cb r3

/-- The desired short-name set of one call: short names of
`{last_model_path if truthy} ∪ keys(best_k_models)` (duplicates collapse). -/
def desiredNames (cb : ModelCheckpoint) : Finset String :=
  (if cb.last_model_path ≠ "" then {shortName cb.dirpath cb.last_model_path} else ∅)
  ∪ (cb.best_k_models.map (shortName cb.dirpath)).toFinset

/-- The set of leaf paths lying strictly below `ns` in a remote state. -/
def leavesUnder (r : RemoteState) (ns : String) : Finset String :=
  (r.leaves.filter (fun l => startswith l (ns ++ "/"))).toFinset

/-- Final state of a run (the store survives an uncaught exception). -/
def runState : Except (NError × RemoteState) RemoteState → RemoteState
  | .ok r => r
  | .error (_, r) => r

/-- Operation trace of a run's final state. -/
def runTrace (res : Except (NError × RemoteState) RemoteState) : List StoreOp :=
  (runState res).trace

/-- Whether a run returned normally. -/
def runOk : Except (NError × RemoteState) RemoteState → Bool
  | .ok _ => true
  | .error _ => false

/-! ## The nested-mapping experiment structure

`experiment.get_structure()` returns a nested mapping whose keys are path
segments and whose values are either further mappings or leaf markers for
uploaded files (spec §6).  `EVal` is such a value; a mapping is an
association list of segment/value pairs (keys unique, as in a Python dict). -/

/-- A value of the experiment structure: an opaque leaf marker (any non-dict
Python value) or a nested mapping. -/
inductive EVal where
  | leaf : EVal
  | dict : List (String × EVal) → EVal

/-- `NeptuneLogger._dict_paths(d, path_in_build)`: depth-first generator over a
nested mapping, yielding each non-dict value's slash-joined path (relative to
`path_in_build`), in iteration order. -/
def dict_paths : List (String × EVal) → Option String → List String
  | [], _ => []
  | (k, v) :: rest, path_in_build =>
    let path := match path_in_build with
      | some p => p ++ "/" ++ k
      | none => k
    (match v with
     | .leaf => [path]
     | .dict d => dict_paths d (some path)) ++ dict_paths rest path_in_build

/-- Python `s.split("/")` (the namespace split on `LOGGER_JOIN_CHAR = "/"`),
over the codepoint sequence: split at every separator, keeping empty
segments, with `"".split("/") = [""]`. -/
def splitSlashAux : List Char → List Char → List (List Char)
  | [], acc => [acc.reverse]
  | c :: cs, acc =>
    if c = '/' then acc.reverse :: splitSlashAux cs []
    else splitSlashAux cs (c :: acc)

/-- Python `s.split("/")` on a string. -/
def splitSlash (s : String) : List String :=
  (splitSlashAux s.data []).map (fun l => ⟨l⟩)

/-- The navigation `reduce(lambda d, k: d[k], [exp_structure, *structure_keys])`:
follow the key sequence through nested mappings; `none` models the Python
`KeyError`/`TypeError` raised when a key is missing or an intermediate value
is not a mapping. -/
def navigateStructure : EVal → List String → Option EVal
  | v, [] => some v
  | .dict entries, k :: rest =>
    match entries.lookup k with
    | some v => navigateStructure v rest
    | none => none
  | .leaf, _ :: _ => none

/-- `NeptuneLogger._get_full_model_names_from_exp_structure(exp_structure, ns)`:
split the namespace on `LOGGER_JOIN_CHAR = "/"`, navigate the structure along
the keys, and collect `_dict_paths` of the resulting mapping into a set.
`none` models the exception Python raises when the navigation fails or ends
at a non-mapping. -/
def get_full_model_names_from_exp_structure
    (exp_structure : List (String × EVal)) (ns : String) :
    Option (Finset String) :=
  let structure_keys := splitSlash ns
  match navigateStructure (.dict exp_structure) structure_keys with
  | some (.dict uploaded_models_dict) =>
    some (dict_paths uploaded_models_dict none).toFinset
  | _ => none

/-- Specification-side description of a nested mapping's leaves: the list of
segment sequences leading from the mapping to each non-dict value, in
iteration order. -/
def leafSegs : List (String × EVal) → List (List String)
  | [] => []
  | (k, v) :: rest =>
    (match v with
     | .leaf => [[k]]
     | .dict d => (leafSegs d).map (fun segs => k :: segs)) ++ leafSegs rest

/-- Slash-join a nonempty segment sequence (empty gives `""`). -/
def joinSlash : List String → String
  | [] => ""
  | [s] => s
  | s :: rest => s ++ "/" ++ joinSlash rest

/-- Number of non-dict values (leaves) in a nested mapping. -/
def countLeaves : List (String × EVal) → Nat
  | [] => 0
  | (_, v) :: rest =>
    (match v with
     | .leaf => 1
     | .dict d => countLeaves d) + countLeaves rest

/-- Slash-join a segment sequence below an optional root path (the meaning of
`path_in_build` in `_dict_paths`). -/
def joinFrom : Option String → List String → String
  | none, segs => joinSlash segs
  | some p, segs => joinSlash (p :: segs)

/-! ## Accounting of a run's store interaction -/

/-- The final state of a (partial or complete) run relates to its initial
state by a sequence `δ` of executed store operations: the failure-injection
point is untouched, the trace grows by exactly `δ`, the operation counter
advances by one per executed operation, and the leaf set is exactly the fold
of the executed operations' effects (no rollback). -/
def DeltaOk (r r' : RemoteState) : Prop :=
  r'.failAt = r.failAt ∧
  ∃ δ : List StoreOp, r'.trace = r.trace ++ δ ∧
    r'.opCount = r.opCount + δ.length ∧
    r'.leaves = δ.foldl applyOp r.leaves

/-- Final state of a run returning an auxiliary value next to the state. -/
def runStateP {α : Type} :
    Except (NError × RemoteState) (α × RemoteState) → RemoteState
  | .ok (_, r) => r
  | .error (_, r) => r

/-- Accounting of a state-valued run: the reached state is an executed-ops
delta of the initial state, and a surfaced store error is the store's own
error for the operation at which it stopped. -/
def Accounts (r : RemoteState)
    (res : Except (NError × RemoteState) RemoteState) : Prop :=
  DeltaOk r (runState res) ∧
  ∀ e r'', res = .error (e, r'') → ∀ n, e = .storeError n →
    r.failAt = some n ∧ r''.opCount = n

/-- Accounting of a run returning an auxiliary value next to the state. -/
def AccountsP {α : Type} (r : RemoteState)
    (res : Except (NError × RemoteState) (α × RemoteState)) : Prop :=
  DeltaOk r (runStateP res) ∧
  ∀ e r'', res = .error (e, r'') → ∀ n, e = .storeError n →
    r.failAt = some n ∧ r''.opCount = n

/-! ## String lemmas -/

theorem startswith_iff {s pre : String} :
    startswith s pre = true ↔ pre.data <+: s.data := by
  simp [startswith, List.isPrefixOf_iff_prefix]

theorem startswith_append (a b : String) : startswith (a ++ b) a = true := by
  rw [startswith_iff, String.data_append]
  exact List.prefix_append a.data b.data

theorem strDrop_append (p t : String) : strDrop (p ++ t) (strLen p) = t := by
  apply String.ext
  show ((p ++ t).data).drop p.data.length = t.data
  rw [String.data_append]
  exact List.drop_left p.data t.data

theorem append_strDrop {p s : String} (h : startswith s p = true) :
    p ++ strDrop s (strLen p) = s := by
  rcases startswith_iff.mp h with ⟨t, ht⟩
  apply String.ext
  show p.data ++ (s.data.drop p.data.length) = s.data
  conv_lhs => rw [← ht]
  rw [List.drop_left p.data t]
  exact ht

theorem string_append_right_inj {p a b : String} (h : p ++ a = p ++ b) :
    a = b := by
  apply String.ext
  have hd : p.data ++ a.data = p.data ++ b.data := by
    rw [← String.data_append, ← String.data_append, h]
  exact List.append_cancel_left hd

theorem startswith_append_cancel (a b c : String) :
    startswith (a ++ b) (a ++ c) = startswith b c := by
  rcases hb : startswith b c with _ | _
  · rw [Bool.eq_false_iff]
    intro hcontra
    rw [startswith_iff, String.data_append, String.data_append,
      List.prefix_append_right_inj] at hcontra
    rw [Bool.eq_false_iff] at hb
    exact hb (startswith_iff.mpr hcontra)
  · rw [startswith_iff, String.data_append, String.data_append,
      List.prefix_append_right_inj]
    exact startswith_iff.mp hb

theorem string_append_assoc (a b c : String) : a ++ b ++ c = a ++ (b ++ c) := by
  apply String.ext
  rw [String.data_append, String.data_append, String.data_append,
    String.data_append, List.append_assoc]

/-! ## Store-operation lemmas -/

theorem runOp_ok_of_failAt_none {r : RemoteState} (op : StoreOp)
    (h : r.failAt = none) :
    runOp r op = .ok { leaves := applyOp r.leaves op, trace := r.trace ++ [op],
                       failAt := r.failAt, opCount := r.opCount + 1 } := by
  simp [runOp, h]

theorem mem_uploadedNamesUnder {ls : List String} {ns f : String} :
    f ∈ uploadedNamesUnder ls ns ↔ ns ++ "/" ++ f ∈ ls := by
  unfold uploadedNamesUnder
  rw [List.mem_dedup, List.mem_map]
  constructor
  · rintro ⟨l, hl, rfl⟩
    rw [List.mem_filter] at hl
    rw [append_strDrop hl.2]
    exact hl.1
  · intro h
    refine ⟨ns ++ "/" ++ f, ?_, ?_⟩
    · rw [List.mem_filter]
      exact ⟨h, startswith_append (ns ++ "/") f⟩
    · exact strDrop_append (ns ++ "/") f

theorem mem_leavesUnder {r : RemoteState} {ns l : String} :
    l ∈ leavesUnder r ns ↔ l ∈ r.leaves ∧ startswith l (ns ++ "/") = true := by
  unfold leavesUnder
  rw [List.mem_toFinset, List.mem_filter]

/-! ## Success-path characterization of each phase (no store failure) -/

theorem saveLastModel_ok (ns : String) (cb : ModelCheckpoint) (r : RemoteState)
    (hfail : r.failAt = none)
    (hlast : cb.last_model_path ≠ "" →
      startswith cb.last_model_path (cb.dirpath ++ "/") = true) :
    ∃ r', saveLastModel ns cb r =
        .ok ((if cb.last_model_path ≠ "" then
                {shortName cb.dirpath cb.last_model_path}
              else (∅ : Finset String)), r') ∧
      r'.failAt = none ∧
      (∀ l, l ∈ r'.leaves ↔ l ∈ r.leaves ∨
        ∃ n ∈ (if cb.last_model_path ≠ "" then
                 ({shortName cb.dirpath cb.last_model_path} : Finset String)
               else ∅), l = ns ++ "/" ++ n) ∧
      (∀ op ∈ r'.trace, op ∈ r.trace ∨ ∃ p s, op = .upload p s) := by
  by_cases h : cb.last_model_path = ""
  · refine ⟨r, ?_, hfail, ?_, ?_⟩
    · simp [saveLastModel, h]
    · intro l
      simp [h]
    · intro op hop
      exact Or.inl hop
  · have hsw := hlast h
    have hg : get_full_model_name cb.last_model_path cb.dirpath =
        .ok (shortName cb.dirpath cb.last_model_path) := by
      unfold get_full_model_name shortName
      rw [if_pos hsw]
    refine ⟨{ leaves := r.leaves.insert
                (ns ++ "/" ++ shortName cb.dirpath cb.last_model_path),
              trace := r.trace ++
                [.upload (ns ++ "/" ++ shortName cb.dirpath cb.last_model_path)
                  cb.last_model_path],
              failAt := r.failAt, opCount := r.opCount + 1 }, ?_, ?_, ?_, ?_⟩
    · rw [if_pos h]
      simp only [saveLastModel, if_pos h, hg, runOp_ok_of_failAt_none _ hfail,
        applyOp]
    · exact hfail
    · intro l
      rw [if_pos h]
      simp only [List.mem_insert_iff, Finset.mem_singleton]
      constructor
      · rintro (rfl | hl)
        · exact Or.inr ⟨shortName cb.dirpath cb.last_model_path, rfl, rfl⟩
        · exact Or.inl hl
      · rintro (hl | ⟨n, rfl, rfl⟩)
        · exact Or.inr hl
        · exact Or.inl rfl
    · intro op hop
      simp only [List.mem_append, List.mem_singleton] at hop
      rcases hop with hop | rfl
      · exact Or.inl hop
      · exact Or.inr ⟨_, _, rfl⟩

theorem uploadBestK_ok (ns dirpath : String) :
    ∀ (keys : List String) (acc : Finset String) (r : RemoteState),
    r.failAt = none →
    (∀ k ∈ keys, startswith k (dirpath ++ "/") = true) →
    ∃ r', uploadBestK ns dirpath keys acc r =
        .ok (acc ∪ (keys.map (shortName dirpath)).toFinset, r') ∧
      r'.failAt = none ∧
      (∀ l, l ∈ r'.leaves ↔ l ∈ r.leaves ∨
        ∃ k ∈ keys, l = ns ++ "/" ++ shortName dirpath k) ∧
      (∀ op ∈ r'.trace, op ∈ r.trace ∨ ∃ p s, op = .upload p s)
  | [], acc, r, hfail, _ => by
    refine ⟨r, ?_, hfail, ?_, ?_⟩
    · simp [uploadBestK]
    · intro l
      simp
    · intro op hop
      exact Or.inl hop
  | key :: rest, acc, r, hfail, hvalid => by
    have hsw : startswith key (dirpath ++ "/") = true :=
      hvalid key (List.mem_cons_self key rest)
    have hg : get_full_model_name key dirpath =
        .ok (shortName dirpath key) := by
      unfold get_full_model_name shortName
      rw [if_pos hsw]
    have hrest := uploadBestK_ok ns dirpath rest
      (insert (shortName dirpath key) acc)
      { leaves := r.leaves.insert (ns ++ "/" ++ shortName dirpath key),
        trace := r.trace ++ [.upload (ns ++ "/" ++ shortName dirpath key) key],
        failAt := r.failAt, opCount := r.opCount + 1 }
      hfail (fun k hk => hvalid k (List.mem_cons_of_mem key hk))
    obtain ⟨r', heq, hfail', hmem, htr⟩ := hrest
    refine ⟨r', ?_, hfail', ?_, ?_⟩
    · show uploadBestK ns dirpath (key :: rest) acc r = _
      rw [uploadBestK]
      simp only [hg, runOp_ok_of_failAt_none _ hfail, applyOp]
      rw [heq]
      congr 2
      rw [List.map_cons, List.toFinset_cons, Finset.insert_union,
        Finset.union_insert]
    · intro l
      rw [hmem l]
      simp only [List.mem_insert_iff, List.mem_cons]
      constructor
      · rintro ((rfl | hl) | ⟨k, hk, rfl⟩)
        · exact Or.inr ⟨key, Or.inl rfl, rfl⟩
        · exact Or.inl hl
        · exact Or.inr ⟨k, Or.inr hk, rfl⟩
      · rintro (hl | ⟨k, (rfl | hk), rfl⟩)
        · exact Or.inl (Or.inr hl)
        · exact Or.inl (Or.inl rfl)
        · exact Or.inr ⟨k, hk, rfl⟩
    · intro op hop
      rcases htr op hop with hop' | hup
      · simp only [List.mem_append, List.mem_singleton] at hop'
        rcases hop' with hop' | rfl
        · exact Or.inl hop'
        · exact Or.inr ⟨_, _, rfl⟩
      · exact Or.inr hup

theorem deleteStale_ok (ns : String) :
    ∀ (files : List String) (r : RemoteState), r.failAt = none →
    ∃ r', deleteStale ns files r = .ok r' ∧ r'.failAt = none ∧
      (∀ l, l ∈ r'.leaves ↔ l ∈ r.leaves ∧ ∀ f ∈ files, l ≠ ns ++ "/" ++ f) ∧
      (∀ op ∈ r'.trace, op ∈ r.trace ∨
        ∃ f ∈ files, op = .delete (ns ++ "/" ++ f))
  | [], r, hfail => by
    refine ⟨r, ?_, hfail, ?_, ?_⟩
    · simp [deleteStale]
    · intro l
      simp
    · intro op hop
      exact Or.inl hop
  | f :: rest, r, hfail => by
    have hrest := deleteStale_ok ns rest
      { leaves := r.leaves.filter (fun l => decide (l ≠ ns ++ "/" ++ f)),
        trace := r.trace ++ [.delete (ns ++ "/" ++ f)],
        failAt := r.failAt, opCount := r.opCount + 1 } hfail
    obtain ⟨r', heq, hfail', hmem, htr⟩ := hrest
    refine ⟨r', ?_, hfail', ?_, ?_⟩
    · show deleteStale ns (f :: rest) r = _
      rw [deleteStale]
      simp only [runOp_ok_of_failAt_none _ hfail, applyOp]
      exact heq
    · intro l
      rw [hmem l]
      simp only [List.mem_filter, decide_eq_true_eq, List.mem_cons]
      constructor
      · rintro ⟨⟨hl, hne⟩, hrest'⟩
        refine ⟨hl, ?_⟩
        rintro g (rfl | hg)
        · exact hne
        · exact hrest' g hg
      · rintro ⟨hl, hall⟩
        exact ⟨⟨hl, hall f (Or.inl rfl)⟩, fun g hg => hall g (Or.inr hg)⟩
    · intro op hop
      rcases htr op hop with hop' | ⟨g, hg, rfl⟩
      · simp only [List.mem_append, List.mem_singleton] at hop'
        rcases hop' with hop' | rfl
        · exact Or.inl hop'
        · exact Or.inr ⟨f, List.mem_cons_self f rest, rfl⟩
      · exact Or.inr ⟨g, List.mem_cons_of_mem f hg, rfl⟩

theorem removeStale_ok (ns : String) (fns : Finset String) (r : RemoteState)
    (hfail : r.failAt = none) :
    ∃ r', removeStale ns fns r = .ok r' ∧ r'.failAt = none ∧
      (∀ l, l ∈ r'.leaves ↔ l ∈ r.leaves ∧
        (startswith l (ns ++ "/") = true →
          strDrop l (strLen (ns ++ "/")) ∈ fns)) ∧
      (∀ op ∈ r'.trace, op ∈ r.trace ∨ op = .existsCheck ns ∨
        op = .getStructure ∨
        ∃ f, f ∉ fns ∧ op = .delete (ns ++ "/" ++ f)) := by
  by_cases hex : existsPath r.leaves ns = true
  · set r1 : RemoteState :=
      { leaves := r.leaves, trace := r.trace ++ [.existsCheck ns],
        failAt := r.failAt, opCount := r.opCount + 1 } with hr1
    set r2 : RemoteState :=
      { leaves := r.leaves,
        trace := (r.trace ++ [.existsCheck ns]) ++ [.getStructure],
        failAt := r.failAt, opCount := r.opCount + 1 + 1 } with hr2
    have hdel := deleteStale_ok ns
      ((uploadedNamesUnder r.leaves ns).filter (fun f => decide (f ∉ fns))) r2
      hfail
    obtain ⟨r', heq, hfail', hmem, htr⟩ := hdel
    refine ⟨r', ?_, hfail', ?_, ?_⟩
    · show removeStale ns fns r = _
      rw [removeStale]
      simp only [runOp_ok_of_failAt_none _ hfail, applyOp, hex, if_true]
      have hfail1 : r1.failAt = none := hfail
      simp only [runOp_ok_of_failAt_none _ hfail1, applyOp]
      exact heq
    · intro l
      rw [hmem l]
      show l ∈ r.leaves ∧ _ ↔ _
      constructor
      · rintro ⟨hl, hall⟩
        refine ⟨hl, fun hsw => ?_⟩
        by_contra hnot
        have hfmem : strDrop l (strLen (ns ++ "/")) ∈
            (uploadedNamesUnder r.leaves ns).filter (fun f => decide (f ∉ fns)) := by
          rw [List.mem_filter]
          refine ⟨?_, by simpa using hnot⟩
          rw [mem_uploadedNamesUnder, append_strDrop hsw]
          exact hl
        exact hall _ hfmem (append_strDrop hsw).symm
      · rintro ⟨hl, himp⟩
        refine ⟨hl, ?_⟩
        intro f hf heql
        rw [List.mem_filter, mem_uploadedNamesUnder] at hf
        have hsw : startswith l (ns ++ "/") = true := by
          rw [heql]
          exact startswith_append (ns ++ "/") f
        have : strDrop l (strLen (ns ++ "/")) = f := by
          rw [heql]
          exact strDrop_append (ns ++ "/") f
        rw [this] at himp
        have := himp hsw
        simp at hf
        exact hf.2 this
    · intro op hop
      rcases htr op hop with hop' | ⟨f, hf, rfl⟩
      · have : op ∈ (r.trace ++ [StoreOp.existsCheck ns]) ++ [StoreOp.getStructure] :=
          hop'
        simp only [List.mem_append, List.mem_singleton] at this
        rcases this with (hop'' | rfl) | rfl
        · exact Or.inl hop''
        · exact Or.inr (Or.inl rfl)
        · exact Or.inr (Or.inr (Or.inl rfl))
      · rw [List.mem_filter] at hf
        refine Or.inr (Or.inr (Or.inr ⟨f, ?_, rfl⟩))
        simpa using hf.2
  · have hex' : existsPath r.leaves ns = false := by
      simpa using hex
    have hnone : ∀ l ∈ r.leaves, startswith l (ns ++ "/") = false := by
      intro l hl
      unfold existsPath at hex'
      rw [List.any_eq_false] at hex'
      have := hex' l hl
      simp only [Bool.or_eq_true, decide_eq_true_eq, not_or] at this
      simpa using this.2
    refine ⟨{ leaves := r.leaves, trace := r.trace ++ [.existsCheck ns],
              failAt := r.failAt, opCount := r.opCount + 1 }, ?_, hfail, ?_, ?_⟩
    · show removeStale ns fns r = _
      rw [removeStale]
      simp only [runOp_ok_of_failAt_none _ hfail, applyOp, hex',
        Bool.false_eq_true, if_false]
    · intro l
      show l ∈ r.leaves ↔ _
      constructor
      · intro hl
        refine ⟨hl, fun hsw => ?_⟩
        rw [hnone l hl] at hsw
        exact absurd hsw (by simp)
      · exact fun h => h.1
    · intro op hop
      simp only [List.mem_append, List.mem_singleton] at hop
      rcases hop with hop | rfl
      · exact Or.inl hop
      · exact Or.inr (Or.inl rfl)

theorem logBestModelMeta_ok (lg : NeptuneLogger) (cb : ModelCheckpoint)
    (r : RemoteState) (hfail : r.failAt = none) :
    ∃ r', logBestModelMeta lg cb r = .ok r' ∧ r'.failAt = none ∧
      (∀ l, l ∈ r'.leaves ↔ l ∈ r.leaves ∨
        (cb.best_model_path ≠ "" ∧ l = construct_path lg "model/best_model_path") ∨
        (cb.best_model_score = true ∧
          l = construct_path lg "model/best_model_score")) ∧
      (∀ op ∈ r'.trace, op ∈ r.trace ∨ ∃ p, op = .assign p) := by
  by_cases hbp : cb.best_model_path = ""
  · by_cases hbs : cb.best_model_score = true
    · refine ⟨{ leaves := r.leaves.insert (construct_path lg "model/best_model_score"),
                trace := r.trace ++ [.assign (construct_path lg "model/best_model_score")],
                failAt := r.failAt, opCount := r.opCount + 1 }, ?_, hfail, ?_, ?_⟩
      · simp [logBestModelMeta, hbp, hbs, runOp, hfail, applyOp]
      · intro l
        simp only [List.mem_insert_iff, hbp, hbs, ne_eq, not_true_eq_false,
          false_and, false_or, true_and]
        exact Or.comm
      · intro op hop
        simp only [List.mem_append, List.mem_singleton] at hop
        rcases hop with hop | rfl
        · exact Or.inl hop
        · exact Or.inr ⟨_, rfl⟩
    · have hbs' : cb.best_model_score = false := by
        simpa using hbs
      refine ⟨r, ?_, hfail, ?_, ?_⟩
      · simp [logBestModelMeta, hbp, hbs']
      · intro l
        simp [hbp, hbs']
      · intro op hop
        exact Or.inl hop
  · by_cases hbs : cb.best_model_score = true
    · refine ⟨{ leaves := (r.leaves.insert (construct_path lg "model/best_model_path")).insert
                  (construct_path lg "model/best_model_score"),
                trace := (r.trace ++ [.assign (construct_path lg "model/best_model_path")]) ++
                  [.assign (construct_path lg "model/best_model_score")],
                failAt := r.failAt, opCount := r.opCount + 1 + 1 }, ?_, hfail, ?_, ?_⟩
      · simp [logBestModelMeta, hbp, hbs, runOp, hfail, applyOp]
      · intro l
        simp only [List.mem_insert_iff, hbp, hbs, ne_eq, not_false_iff,
          true_and]
        tauto
      · intro op hop
        simp only [List.mem_append, List.mem_singleton] at hop
        rcases hop with (hop | rfl) | rfl
        · exact Or.inl hop
        · exact Or.inr ⟨_, rfl⟩
        · exact Or.inr ⟨_, rfl⟩
    · have hbs' : cb.best_model_score = false := by
        simpa using hbs
      refine ⟨{ leaves := r.leaves.insert (construct_path lg "model/best_model_path"),
                trace := r.trace ++ [.assign (construct_path lg "model/best_model_path")],
                failAt := r.failAt, opCount := r.opCount + 1 }, ?_, hfail, ?_, ?_⟩
      · simp [logBestModelMeta, hbp, hbs', runOp, hfail, applyOp]
      · intro l
        simp only [List.mem_insert_iff, hbp, hbs', ne_eq, not_false_iff,
          true_and, Bool.false_eq_true, false_and, or_false]
        exact Or.comm
      · intro op hop
        simp only [List.mem_append, List.mem_singleton] at hop
        rcases hop with hop | rfl
        · exact Or.inl hop
        · exact Or.inr ⟨_, rfl⟩

theorem construct_path_not_under (lg : NeptuneLogger) (key : String)
    (hk : startswith key ("model/checkpoints" ++ "/") = false) :
    startswith (construct_path lg key)
      (construct_path lg "model/checkpoints" ++ "/") = false := by
  unfold construct_path
  by_cases hp : lg.prefix_str = ""
  · simpa [hp] using hk
  · rw [if_neg hp, if_neg hp,
      string_append_assoc (lg.prefix_str ++ "/") "model/checkpoints" "/",
      startswith_append_cancel]
    exact hk

/-- Full characterization of a successful synchronization run: the leaves
below the checkpoints namespace are exactly the desired names, and no delete
of a desired name is issued. -/
theorem after_save_checkpoint_ok (lg : NeptuneLogger) (cb : ModelCheckpoint)
    (r : RemoteState)
    (hflag : lg.log_model_checkpoints = true) (hfail : r.failAt = none)
    (hlast : cb.last_model_path ≠ "" →
      startswith cb.last_model_path (cb.dirpath ++ "/") = true)
    (hbest : ∀ k ∈ cb.best_k_models,
      startswith k (cb.dirpath ++ "/") = true) :
    ∃ r', after_save_checkpoint lg cb r = .ok r' ∧ r'.failAt = none ∧
      (∀ l, startswith l (construct_path lg "model/checkpoints" ++ "/") = true →
        (l ∈ r'.leaves ↔ ∃ n ∈ desiredNames cb,
          l = construct_path lg "model/checkpoints" ++ "/" ++ n)) ∧
      (∀ op ∈ r'.trace, op ∈ r.trace ∨
        ∀ f, op = .delete (construct_path lg "model/checkpoints" ++ "/" ++ f) →
          f ∉ desiredNames cb) := by
  set ns := construct_path lg "model/checkpoints" with hns
  obtain ⟨r1, heq1, hfail1, hmem1, htr1⟩ := saveLastModel_ok ns cb r hfail hlast
  obtain ⟨r2, heq2, hfail2, hmem2, htr2⟩ := uploadBestK_ok ns cb.dirpath
    cb.best_k_models
    (if cb.last_model_path ≠ "" then {shortName cb.dirpath cb.last_model_path}
     else ∅) r1 hfail1 hbest
  have hD : ((if cb.last_model_path ≠ "" then
      ({shortName cb.dirpath cb.last_model_path} : Finset String) else ∅) ∪
      (cb.best_k_models.map (shortName cb.dirpath)).toFinset) =
      desiredNames cb := rfl
  rw [hD] at heq2
  obtain ⟨r3, heq3, hfail3, hmem3, htr3⟩ :=
    removeStale_ok ns (desiredNames cb) r2 hfail2
  obtain ⟨r4, heq4, hfail4, hmem4, htr4⟩ := logBestModelMeta_ok lg cb r3 hfail3
  have hmain : after_save_checkpoint lg cb r = .ok r4 := by
    rw [after_save_checkpoint]
    simp only [hflag, Bool.true_eq_false, if_false, ← hns, heq1, heq2, heq3,
      heq4]
  refine ⟨r4, hmain, hfail4, ?_, ?_⟩
  · intro l hsw
    constructor
    · intro hl4
      have hl3 : l ∈ r3.leaves := by
        rcases (hmem4 l).mp hl4 with hl3 | ⟨_, rfl⟩ | ⟨_, rfl⟩
        · exact hl3
        · exact absurd hsw (by
            rw [construct_path_not_under lg _ (by decide)]
            simp)
        · exact absurd hsw (by
            rw [construct_path_not_under lg _ (by decide)]
            simp)
      have hstrip : strDrop l (strLen (ns ++ "/")) ∈ desiredNames cb :=
        ((hmem3 l).mp hl3).2 hsw
      exact ⟨strDrop l (strLen (ns ++ "/")), hstrip,
        (append_strDrop hsw).symm⟩
    · rintro ⟨n, hn, rfl⟩
      have hl2 : ns ++ "/" ++ n ∈ r2.leaves := by
        rcases Finset.mem_union.mp hn with hn0 | hnb
        · exact (hmem2 _).mpr (Or.inl ((hmem1 _).mpr (Or.inr ⟨n, hn0, rfl⟩)))
        · rw [List.mem_toFinset, List.mem_map] at hnb
          obtain ⟨k, hk, rfl⟩ := hnb
          exact (hmem2 _).mpr (Or.inr ⟨k, hk, rfl⟩)
      have hl3 : ns ++ "/" ++ n ∈ r3.leaves := by
        refine (hmem3 _).mpr ⟨hl2, fun _ => ?_⟩
        rw [strDrop_append (ns ++ "/") n]
        exact hn
      exact (hmem4 _).mpr (Or.inl hl3)
  · intro op hop
    rcases htr4 op hop with hop3 | ⟨p, rfl⟩
    · rcases htr3 op hop3 with hop2 | rfl | rfl | ⟨f, hf, rfl⟩
      · rcases htr2 op hop2 with hop1 | ⟨p, s, rfl⟩
        · rcases htr1 op hop1 with hop0 | ⟨p, s, rfl⟩
          · exact Or.inl hop0
          · exact Or.inr (by intro f h; cases h)
        · exact Or.inr (by intro f h; cases h)
      · exact Or.inr (by intro f h; cases h)
      · exact Or.inr (by intro f h; cases h)
      · refine Or.inr ?_
        intro f' hf'
        have : ns ++ "/" ++ f = ns ++ "/" ++ f' := by
          injection hf'
        have : f = f' := string_append_right_inj this
        rwa [← this]
    · exact Or.inr (by intro f h; cases h)

/-! ## Claim theorems -/

/-- C1: for every synchronization call (`after_save_checkpoint` with
checkpoint logging enabled) in which every supplied checkpoint path starts
with the checkpoint directory prefix followed by `"/"` and no remote-store
operation fails, the call returns normally and afterwards the set of leaf
paths under the checkpoints namespace equals exactly the desired set of
short names derived from `{last_model_path if present} ∪ keys(best_k_models)`:
every desired name is present and every previously uploaded name not in the
desired set has been deleted. -/
theorem claim_C1_convergence (lg : NeptuneLogger) (cb : ModelCheckpoint)
    (r : RemoteState)
    (hflag : lg.log_model_checkpoints = true) (hfail : r.failAt = none)
    (hlast : cb.last_model_path ≠ "" →
      startswith cb.last_model_path (cb.dirpath ++ "/") = true)
    (hbest : ∀ k ∈ cb.best_k_models,
      startswith k (cb.dirpath ++ "/") = true) :
    ∃ r', after_save_checkpoint lg cb r = .ok r' ∧
      leavesUnder r' (construct_path lg "model/checkpoints") =
        (desiredNames cb).image
          (fun n => construct_path lg "model/checkpoints" ++ "/" ++ n) := by
  obtain ⟨r', hmain, _, hmem, _⟩ :=
    after_save_checkpoint_ok lg cb r hflag hfail hlast hbest
  refine ⟨r', hmain, ?_⟩
  ext l
  rw [mem_leavesUnder, Finset.mem_image]
  constructor
  · rintro ⟨hl, hsw⟩
    obtain ⟨n, hn, rfl⟩ := (hmem l hsw).mp hl
    exact ⟨n, hn, rfl⟩
  · rintro ⟨n, hn, rfl⟩
    have hsw := startswith_append
      (construct_path lg "model/checkpoints" ++ "/") n
    exact ⟨(hmem _ hsw).mpr ⟨n, hn, rfl⟩, hsw⟩

theorem claim_C1_witness :
    ∃ r', after_save_checkpoint ⟨true, "training"⟩
        ⟨"/ckpt", "/ckpt/last.pt", ["/ckpt/b1.pt"], "/ckpt/b1.pt", true⟩
        ⟨["training/model/checkpoints/old.pt"], [], none, 0⟩ = .ok r' ∧
      leavesUnder r' (construct_path ⟨true, "training"⟩ "model/checkpoints") =
        (desiredNames
            ⟨"/ckpt", "/ckpt/last.pt", ["/ckpt/b1.pt"], "/ckpt/b1.pt", true⟩).image
          (fun n => construct_path ⟨true, "training"⟩ "model/checkpoints" ++ "/" ++ n) :=
  claim_C1_convergence _ _ _ rfl rfl (by decide) (by decide)

/-- C4: calling `after_save_checkpoint` twice in succession with identical
inputs (and no external mutation, no store failure, validly rooted paths)
leaves the leaf set under the checkpoints namespace after the second call
equal to the leaf set after the first call. -/
theorem claim_C4_idempotence (lg : NeptuneLogger) (cb : ModelCheckpoint)
    (r : RemoteState)
    (hflag : lg.log_model_checkpoints = true) (hfail : r.failAt = none)
    (hlast : cb.last_model_path ≠ "" →
      startswith cb.last_model_path (cb.dirpath ++ "/") = true)
    (hbest : ∀ k ∈ cb.best_k_models,
      startswith k (cb.dirpath ++ "/") = true) :
    ∃ r1 r2, after_save_checkpoint lg cb r = .ok r1 ∧
      after_save_checkpoint lg cb r1 = .ok r2 ∧
      leavesUnder r2 (construct_path lg "model/checkpoints") =
        leavesUnder r1 (construct_path lg "model/checkpoints") := by
  obtain ⟨r1, h1, hf1, hm1, _⟩ :=
    after_save_checkpoint_ok lg cb r hflag hfail hlast hbest
  obtain ⟨r2, h2, _, hm2, _⟩ :=
    after_save_checkpoint_ok lg cb r1 hflag hf1 hlast hbest
  refine ⟨r1, r2, h1, h2, ?_⟩
  ext l
  rw [mem_leavesUnder, mem_leavesUnder]
  constructor
  · rintro ⟨hl, hsw⟩
    exact ⟨(hm1 l hsw).mpr ((hm2 l hsw).mp hl), hsw⟩
  · rintro ⟨hl, hsw⟩
    exact ⟨(hm2 l hsw).mpr ((hm1 l hsw).mp hl), hsw⟩

theorem claim_C4_witness :
    ∃ r1 r2, after_save_checkpoint ⟨true, "training"⟩
        ⟨"/ckpt", "/ckpt/last.pt", ["/ckpt/b1.pt"], "", false⟩
        ⟨["training/model/checkpoints/old.pt"], [], none, 0⟩ = .ok r1 ∧
      after_save_checkpoint ⟨true, "training"⟩
        ⟨"/ckpt", "/ckpt/last.pt", ["/ckpt/b1.pt"], "", false⟩ r1 = .ok r2 ∧
      leavesUnder r2 (construct_path ⟨true, "training"⟩ "model/checkpoints") =
        leavesUnder r1 (construct_path ⟨true, "training"⟩ "model/checkpoints") :=
  claim_C4_idempotence _ _ _ rfl rfl (by decide) (by decide)

/-- C5: when `best_k_models` is empty and `last_model_path` is absent, the
desired set is empty and every pre-existing leaf under the checkpoints
namespace is deleted — the namespace holds no leaves afterwards. -/
theorem claim_C5_empty_desired (lg : NeptuneLogger) (cb : ModelCheckpoint)
    (r : RemoteState)
    (hflag : lg.log_model_checkpoints = true) (hfail : r.failAt = none)
    (hlastE : cb.last_model_path = "") (hbestE : cb.best_k_models = []) :
    desiredNames cb = ∅ ∧
    ∃ r', after_save_checkpoint lg cb r = .ok r' ∧
      leavesUnder r' (construct_path lg "model/checkpoints") = ∅ := by
  have hD : desiredNames cb = ∅ := by
    simp [desiredNames, hlastE, hbestE]
  obtain ⟨r', hmain, _, hmem, _⟩ :=
    after_save_checkpoint_ok lg cb r hflag hfail
      (fun h => absurd hlastE h) (by rw [hbestE]; intro k hk; cases hk)
  refine ⟨hD, r', hmain, ?_⟩
  ext l
  simp only [Finset.not_mem_empty, iff_false]
  rw [mem_leavesUnder]
  rintro ⟨hl, hsw⟩
  obtain ⟨n, hn, _⟩ := (hmem l hsw).mp hl
  rw [hD] at hn
  exact absurd hn (Finset.not_mem_empty n)

theorem claim_C5_witness :
    desiredNames ⟨"/ckpt", "", [], "", false⟩ = ∅ ∧
    ∃ r', after_save_checkpoint ⟨true, "training"⟩
        ⟨"/ckpt", "", [], "", false⟩
        ⟨["training/model/checkpoints/old.pt",
          "training/model/checkpoints/old2.pt"], [], none, 0⟩ = .ok r' ∧
      leavesUnder r' (construct_path ⟨true, "training"⟩ "model/checkpoints") = ∅ :=
  claim_C5_empty_desired _ _ _ rfl rfl rfl rfl

/-- C2 (amended): desired names that are already present are not deleted and
remain present after the call — but they are not exempt from writing: the
routine uploads every desired name unconditionally (idempotent overwrite),
so such entries do receive an upload.  This theorem proves the amended
"no delete, still present" part. -/
theorem claim_C2_no_delete_of_desired (lg : NeptuneLogger)
    (cb : ModelCheckpoint) (r : RemoteState)
    (hflag : lg.log_model_checkpoints = true) (hfail : r.failAt = none)
    (hlast : cb.last_model_path ≠ "" →
      startswith cb.last_model_path (cb.dirpath ++ "/") = true)
    (hbest : ∀ k ∈ cb.best_k_models,
      startswith k (cb.dirpath ++ "/") = true)
    (n : String) (hn : n ∈ desiredNames cb) :
    ∃ r', after_save_checkpoint lg cb r = .ok r' ∧
      construct_path lg "model/checkpoints" ++ "/" ++ n ∈ r'.leaves ∧
      (StoreOp.delete (construct_path lg "model/checkpoints" ++ "/" ++ n) ∈
          r'.trace →
        StoreOp.delete (construct_path lg "model/checkpoints" ++ "/" ++ n) ∈
          r.trace) := by
  obtain ⟨r', hmain, _, hmem, htr⟩ :=
    after_save_checkpoint_ok lg cb r hflag hfail hlast hbest
  refine ⟨r', hmain, ?_, ?_⟩
  · exact (hmem _ (startswith_append
      (construct_path lg "model/checkpoints" ++ "/") n)).mpr ⟨n, hn, rfl⟩
  · intro hdel
    rcases htr _ hdel with hold | hnodel
    · exact hold
    · exact absurd hn (hnodel n rfl)

theorem claim_C2_witness :
    ∃ r', after_save_checkpoint ⟨true, "training"⟩
        ⟨"/ckpt", "", ["/ckpt/a.pt"], "", false⟩
        ⟨["training/model/checkpoints/a.pt"], [], none, 0⟩ = .ok r' ∧
      construct_path ⟨true, "training"⟩ "model/checkpoints" ++ "/" ++ "a.pt" ∈
        r'.leaves ∧
      (StoreOp.delete (construct_path ⟨true, "training"⟩ "model/checkpoints" ++
          "/" ++ "a.pt") ∈ r'.trace →
        StoreOp.delete (construct_path ⟨true, "training"⟩ "model/checkpoints" ++
          "/" ++ "a.pt") ∈ ([] : List StoreOp)) :=
  claim_C2_no_delete_of_desired _ _ _ rfl rfl (by decide) (by decide)
    "a.pt" (by decide)

/-- C2 (counterexample): the claim "entries in `desiredNames ∩ uploadedNames`
receive no write at all (zero upload calls)" is false: here `"a.pt"` is both
desired and already uploaded, yet the call performs an upload for it. -/
theorem claim_C2_counterexample :
    "a.pt" ∈ desiredNames ⟨"/ckpt", "", ["/ckpt/a.pt"], "", false⟩ ∧
    "a.pt" ∈ uploadedNamesUnder ["training/model/checkpoints/a.pt"]
      (construct_path ⟨true, "training"⟩ "model/checkpoints") ∧
    StoreOp.upload "training/model/checkpoints/a.pt" "/ckpt/a.pt" ∈
      runTrace (after_save_checkpoint ⟨true, "training"⟩
        ⟨"/ckpt", "", ["/ckpt/a.pt"], "", false⟩
        ⟨["training/model/checkpoints/a.pt"], [], none, 0⟩) := by
  decide

/-- C10: when `_log_model_checkpoints` is false the call returns immediately
with the state untouched — in particular the trace is unchanged, so no
upload, delete, existence check, structure enumeration or metadata write is
performed. -/
theorem claim_C10_flag_off (lg : NeptuneLogger) (cb : ModelCheckpoint)
    (r : RemoteState) (hflag : lg.log_model_checkpoints = false) :
    after_save_checkpoint lg cb r = .ok r := by
  rw [after_save_checkpoint, if_pos hflag]

theorem claim_C10_witness :
    after_save_checkpoint ⟨false, "training"⟩
        ⟨"/ckpt", "/ckpt/last.pt", ["/ckpt/b1.pt"], "/ckpt/b2.pt", true⟩
        ⟨["x"], [], none, 0⟩ =
      .ok ⟨["x"], [], none, 0⟩ :=
  claim_C10_flag_off _ _ _ rfl

/-- C6: the desired-name set collapses duplicates — a path appearing both as
the last checkpoint and as a best-k key contributes one element; in the
concrete Scenario A (`dirpath = "/ckpt"`, last `= "/ckpt/e5.pt"`, best-k keys
`{"/ckpt/e3.pt", "/ckpt/e5.pt"}`, empty remote namespace) the call succeeds
and the remote leaves under the checkpoints namespace are exactly
`{e5.pt, e3.pt}`. -/
theorem claim_C6_scenarioA :
    desiredNames ⟨"/ckpt", "/ckpt/e5.pt", ["/ckpt/e3.pt", "/ckpt/e5.pt"], "", false⟩ =
      ({"e5.pt", "e3.pt"} : Finset String) ∧
    (desiredNames
      ⟨"/ckpt", "/ckpt/e5.pt", ["/ckpt/e3.pt", "/ckpt/e5.pt"], "", false⟩).card = 2 ∧
    runOk (after_save_checkpoint ⟨true, "training"⟩
      ⟨"/ckpt", "/ckpt/e5.pt", ["/ckpt/e3.pt", "/ckpt/e5.pt"], "", false⟩
      ⟨[], [], none, 0⟩) = true ∧
    leavesUnder (runState (after_save_checkpoint ⟨true, "training"⟩
        ⟨"/ckpt", "/ckpt/e5.pt", ["/ckpt/e3.pt", "/ckpt/e5.pt"], "", false⟩
        ⟨[], [], none, 0⟩))
      (construct_path ⟨true, "training"⟩ "model/checkpoints") =
      ({"training/model/checkpoints/e5.pt",
        "training/model/checkpoints/e3.pt"} : Finset String) := by
  decide

/-- C9 (amended): for every validly rooted path, `_get_full_model_name`
succeeds and prepending `dirpath ++ "/"` to the returned short name yields
the original path back (stripping is a left inverse of prefix
concatenation); the short name starts with the separator exactly when the
path continues with a second separator right after the prefix, so it is
separator-free at the front whenever the path does not. -/
theorem claim_C9_left_inverse (model_path dirpath : String)
    (h : startswith model_path (dirpath ++ "/") = true) :
    get_full_model_name model_path dirpath =
      .ok (shortName dirpath model_path) ∧
    dirpath ++ "/" ++ shortName dirpath model_path = model_path ∧
    (startswith model_path (dirpath ++ "/" ++ "/") = false →
      startswith (shortName dirpath model_path) "/" = false) := by
  refine ⟨?_, append_strDrop h, ?_⟩
  · unfold get_full_model_name shortName
    rw [if_pos h]
  · intro hno
    by_contra hsw
    rw [Bool.not_eq_false] at hsw
    have hsw' : startswith (strDrop model_path (strLen (dirpath ++ "/"))) "/" =
        true := hsw
    have : startswith model_path (dirpath ++ "/" ++ "/") = true := by
      conv_lhs => rw [← append_strDrop h]
      rw [startswith_append_cancel]
      exact hsw'
    rw [this] at hno
    cases hno

theorem claim_C9_witness :
    get_full_model_name "/ckpt/e1.pt" "/ckpt" =
      .ok (shortName "/ckpt" "/ckpt/e1.pt") ∧
    "/ckpt" ++ "/" ++ shortName "/ckpt" "/ckpt/e1.pt" = "/ckpt/e1.pt" ∧
    (startswith "/ckpt/e1.pt" ("/ckpt" ++ "/" ++ "/") = false →
      startswith (shortName "/ckpt" "/ckpt/e1.pt") "/" = false) :=
  claim_C9_left_inverse "/ckpt/e1.pt" "/ckpt" (by decide)

/-- C9 (counterexample): the claim that the returned short name never starts
with the separator is false: `"/ckpt//a.pt"` is validly rooted under
`"/ckpt"`, yet its short name is `"/a.pt"`, which starts with `"/"`. -/
theorem claim_C9_counterexample :
    startswith "/ckpt//a.pt" ("/ckpt" ++ "/") = true ∧
    get_full_model_name "/ckpt//a.pt" "/ckpt" = .ok "/a.pt" ∧
    startswith "/a.pt" "/" = true :=
  ⟨by decide, by rfl, by decide⟩

/-! ## Error path: invalid checkpoint paths -/

theorem saveLastModel_err (ns : String) (cb : ModelCheckpoint)
    (r : RemoteState) (hne : cb.last_model_path ≠ "")
    (hswf : startswith cb.last_model_path (cb.dirpath ++ "/") = false) :
    saveLastModel ns cb r =
      .error (.invalidPath (cb.last_model_path ++
        " was expected to start with " ++ (cb.dirpath ++ "/") ++ "."), r) := by
  rw [saveLastModel, if_pos hne]
  unfold get_full_model_name
  rw [if_neg (by simp [hswf])]

theorem uploadBestK_err (ns dirpath : String) :
    ∀ (keys : List String) (acc : Finset String) (r : RemoteState),
    r.failAt = none →
    (∃ k ∈ keys, startswith k (dirpath ++ "/") = false) →
    ∃ msg r', uploadBestK ns dirpath keys acc r =
        .error (.invalidPath msg, r') ∧
      r'.failAt = none ∧
      ∀ op ∈ r'.trace, op ∈ r.trace ∨ ∃ p s, op = .upload p s
  | [], _, r, _, hbad => by
    obtain ⟨k, hk, _⟩ := hbad
    cases hk
  | key :: rest, acc, r, hfail, hbad => by
    by_cases hsw : startswith key (dirpath ++ "/") = true
    · have hbad' : ∃ k ∈ rest, startswith k (dirpath ++ "/") = false := by
        obtain ⟨k, hk, hkf⟩ := hbad
        rcases List.mem_cons.mp hk with rfl | hk'
        · rw [hsw] at hkf
          cases hkf
        · exact ⟨k, hk', hkf⟩
      have hg : get_full_model_name key dirpath =
          .ok (shortName dirpath key) := by
        unfold get_full_model_name shortName
        rw [if_pos hsw]
      obtain ⟨msg, r', heq, hfail', htr⟩ := uploadBestK_err ns dirpath rest
        (insert (shortName dirpath key) acc)
        { leaves := r.leaves.insert (ns ++ "/" ++ shortName dirpath key),
          trace := r.trace ++ [.upload (ns ++ "/" ++ shortName dirpath key) key],
          failAt := r.failAt, opCount := r.opCount + 1 }
        hfail hbad'
      refine ⟨msg, r', ?_, hfail', ?_⟩
      · rw [uploadBestK]
        simp only [hg, runOp_ok_of_failAt_none _ hfail, applyOp]
        exact heq
      · intro op hop
        rcases htr op hop with hop' | hup
        · simp only [List.mem_append, List.mem_singleton] at hop'
          rcases hop' with h | rfl
          · exact Or.inl h
          · exact Or.inr ⟨_, _, rfl⟩
        · exact Or.inr hup
    · have hswf : startswith key (dirpath ++ "/") = false := by
        simpa using hsw
      refine ⟨key ++ " was expected to start with " ++ (dirpath ++ "/") ++ ".",
        r, ?_, hfail, fun op hop => Or.inl hop⟩
      rw [uploadBestK]
      unfold get_full_model_name
      rw [if_neg (by simp [hswf])]

/-- C3 (amended): when some supplied checkpoint path is not rooted under the
checkpoint directory (and no store operation fails first), the call raises
the invalid-path `ValueError` before any delete, existence check, structure
enumeration or metadata write has been performed — the only store operations
possibly performed before the error are uploads of the paths validated
earlier (the last model and earlier best-k keys). -/
theorem claim_C3_invalid_path (lg : NeptuneLogger) (cb : ModelCheckpoint)
    (r : RemoteState)
    (hflag : lg.log_model_checkpoints = true) (hfail : r.failAt = none)
    (hbad : ¬((cb.last_model_path ≠ "" →
        startswith cb.last_model_path (cb.dirpath ++ "/") = true) ∧
      ∀ k ∈ cb.best_k_models, startswith k (cb.dirpath ++ "/") = true)) :
    ∃ msg r', after_save_checkpoint lg cb r =
        .error (.invalidPath msg, r') ∧
      ∀ op ∈ r'.trace, op ∈ r.trace ∨ ∃ p s, op = .upload p s := by
  set ns := construct_path lg "model/checkpoints" with hns
  by_cases hlast : cb.last_model_path ≠ "" →
      startswith cb.last_model_path (cb.dirpath ++ "/") = true
  · have hbadk : ∃ k ∈ cb.best_k_models,
        startswith k (cb.dirpath ++ "/") = false := by
      rcases not_and_or.mp hbad with h | h
      · exact absurd hlast h
      · push_neg at h
        obtain ⟨k, hk, hkf⟩ := h
        exact ⟨k, hk, by simpa using hkf⟩
    obtain ⟨r1, heq1, hfail1, _, htr1⟩ := saveLastModel_ok ns cb r hfail hlast
    obtain ⟨msg, r', heq2, _, htr2⟩ := uploadBestK_err ns cb.dirpath
      cb.best_k_models
      (if cb.last_model_path ≠ "" then {shortName cb.dirpath cb.last_model_path}
       else ∅) r1 hfail1 hbadk
    refine ⟨msg, r', ?_, ?_⟩
    · rw [after_save_checkpoint]
      simp only [hflag, Bool.true_eq_false, if_false, ← hns, heq1, heq2]
    · intro op hop
      rcases htr2 op hop with hop1 | hup
      · rcases htr1 op hop1 with hop0 | hup
        · exact Or.inl hop0
        · exact Or.inr hup
      · exact Or.inr hup
  · push_neg at hlast
    obtain ⟨hne, hswf⟩ := hlast
    have heq1 := saveLastModel_err ns cb r hne (by simpa using hswf)
    refine ⟨cb.last_model_path ++ " was expected to start with " ++
      (cb.dirpath ++ "/") ++ ".", r, ?_, fun op hop => Or.inl hop⟩
    rw [after_save_checkpoint]
    simp only [hflag, Bool.true_eq_false, if_false, ← hns, heq1]

theorem claim_C3_witness :
    ∃ msg r', after_save_checkpoint ⟨true, "training"⟩
        ⟨"/ckpt", "/ckpt/ok.pt", ["/elsewhere/bad.pt"], "", false⟩
        ⟨[], [], none, 0⟩ = .error (.invalidPath msg, r') ∧
      ∀ op ∈ r'.trace, op ∈ ([] : List StoreOp) ∨
        ∃ p s, op = StoreOp.upload p s :=
  claim_C3_invalid_path _ _ _ rfl rfl (by decide)

/-- C3 (counterexample): the claim that the error is raised before **any**
upload has been performed is false: with a valid last checkpoint path and an
ill-rooted best-k key, the call raises the invalid-path error but has
already uploaded the last checkpoint. -/
theorem claim_C3_counterexample :
    runOk (after_save_checkpoint ⟨true, "training"⟩
      ⟨"/ckpt", "/ckpt/ok.pt", ["/elsewhere/bad.pt"], "", false⟩
      ⟨[], [], none, 0⟩) = false ∧
    runTrace (after_save_checkpoint ⟨true, "training"⟩
      ⟨"/ckpt", "/ckpt/ok.pt", ["/elsewhere/bad.pt"], "", false⟩
      ⟨[], [], none, 0⟩) =
      [StoreOp.upload "training/model/checkpoints/ok.pt" "/ckpt/ok.pt"] := by
  decide

/-! ## Accounting of arbitrary runs (including injected store failures) -/

theorem DeltaOk_refl (r : RemoteState) : DeltaOk r r :=
  ⟨rfl, [], by simp, by simp, rfl⟩

theorem DeltaOk_trans {r1 r2 r3 : RemoteState}
    (h12 : DeltaOk r1 r2) (h23 : DeltaOk r2 r3) : DeltaOk r1 r3 := by
  obtain ⟨hf12, δ1, ht1, hc1, hl1⟩ := h12
  obtain ⟨hf23, δ2, ht2, hc2, hl2⟩ := h23
  refine ⟨hf23.trans hf12, δ1 ++ δ2, ?_, ?_, ?_⟩
  · rw [ht2, ht1, List.append_assoc]
  · rw [hc2, hc1, List.length_append]
    omega
  · rw [hl2, hl1, List.foldl_append]

theorem runOp_accounts (r : RemoteState) (op : StoreOp) :
    Accounts r (runOp r op) := by
  unfold runOp
  by_cases h : r.failAt = some r.opCount
  · rw [if_pos h]
    refine ⟨DeltaOk_refl r, ?_⟩
    rintro e r'' heq n hn
    injection heq with heq'
    obtain ⟨rfl, rfl⟩ := Prod.mk.injEq .. ▸ heq'
    injection hn with hn'
    subst hn'
    exact ⟨h, rfl⟩
  · rw [if_neg h]
    refine ⟨⟨rfl, [op], rfl, rfl, rfl⟩, ?_⟩
    rintro e r'' heq
    cases heq

theorem Accounts_ok_refl (r : RemoteState) : Accounts r (.ok r) := by
  refine ⟨DeltaOk_refl r, ?_⟩
  rintro e r'' heq
  cases heq

theorem AccountsP_ok_refl {α : Type} (a : α) (r : RemoteState) :
    AccountsP r (.ok (a, r)) := by
  refine ⟨DeltaOk_refl r, ?_⟩
  rintro e r'' heq
  cases heq

theorem Accounts_ok_intro {r r1 : RemoteState} (hδ : DeltaOk r r1) :
    Accounts r (.ok r1) := by
  refine ⟨hδ, ?_⟩
  rintro e r'' heq
  cases heq

theorem Accounts_ok_elim {r r1 : RemoteState} (h : Accounts r (.ok r1)) :
    DeltaOk r r1 := h.1

theorem AccountsP_ok_elim {α : Type} {r r1 : RemoteState} {a : α}
    (h : AccountsP r (.ok (a, r1))) : DeltaOk r r1 := h.1

theorem Accounts_error_elim {r er : RemoteState} {en : NError}
    (h : Accounts r (.error (en, er))) :
    DeltaOk r er ∧
    ∀ n, en = .storeError n → r.failAt = some n ∧ er.opCount = n :=
  ⟨h.1, fun n hn => h.2 en er rfl n hn⟩

theorem AccountsP_error_elim {α : Type} {r er : RemoteState} {en : NError}
    (h : AccountsP (α := α) r (.error (en, er))) :
    DeltaOk r er ∧
    ∀ n, en = .storeError n → r.failAt = some n ∧ er.opCount = n :=
  ⟨h.1, fun n hn => h.2 en er rfl n hn⟩

theorem Accounts_error_intro {r er : RemoteState} {en : NError}
    (hδ : DeltaOk r er)
    (hst : ∀ n, en = .storeError n → r.failAt = some n ∧ er.opCount = n) :
    Accounts r (.error (en, er)) := by
  refine ⟨hδ, ?_⟩
  intro e r'' heq n hn
  injection heq with h
  have h1 : en = e := congrArg Prod.fst h
  have h2 : er = r'' := congrArg Prod.snd h
  subst h1
  subst h2
  exact hst n hn

theorem AccountsP_error_intro {α : Type} {r er : RemoteState} {en : NError}
    (hδ : DeltaOk r er)
    (hst : ∀ n, en = .storeError n → r.failAt = some n ∧ er.opCount = n) :
    AccountsP (α := α) r (.error (en, er)) := by
  refine ⟨hδ, ?_⟩
  intro e r'' heq n hn
  injection heq with h
  have h1 : en = e := congrArg Prod.fst h
  have h2 : er = r'' := congrArg Prod.snd h
  subst h1
  subst h2
  exact hst n hn

theorem AccountsP_error_invalid {α : Type} (r : RemoteState) (msg : String) :
    AccountsP (α := α) r (.error (.invalidPath msg, r)) :=
  AccountsP_error_intro (DeltaOk_refl r)
    (fun _ hn => absurd hn (fun hh => NError.noConfusion hh))

theorem Accounts_compose {r r1 : RemoteState}
    {res : Except (NError × RemoteState) RemoteState}
    (hδ : DeltaOk r r1) (h : Accounts r1 res) : Accounts r res := by
  refine ⟨DeltaOk_trans hδ h.1, ?_⟩
  intro e r'' heq n hn
  obtain ⟨hfa, hoc⟩ := h.2 e r'' heq n hn
  refine ⟨?_, hoc⟩
  rw [← hδ.1]
  exact hfa

theorem AccountsP_compose {α : Type} {r r1 : RemoteState}
    {res : Except (NError × RemoteState) (α × RemoteState)}
    (hδ : DeltaOk r r1) (h : AccountsP r1 res) : AccountsP r res := by
  refine ⟨DeltaOk_trans hδ h.1, ?_⟩
  intro e r'' heq n hn
  obtain ⟨hfa, hoc⟩ := h.2 e r'' heq n hn
  refine ⟨?_, hoc⟩
  rw [← hδ.1]
  exact hfa

theorem saveLastModel_accounts (ns : String) (cb : ModelCheckpoint)
    (r : RemoteState) : AccountsP r (saveLastModel ns cb r) := by
  unfold saveLastModel
  by_cases hne : cb.last_model_path ≠ ""
  · rw [if_pos hne]
    split
    · exact AccountsP_error_invalid r _
    · rename_i name hg
      have hop := runOp_accounts r
        (.upload (ns ++ "/" ++ name) cb.last_model_path)
      split
      · rename_i e hr
        obtain ⟨en, er⟩ := e
        rw [hr] at hop
        obtain ⟨hδ, hst⟩ := Accounts_error_elim hop
        exact AccountsP_error_intro hδ hst
      · rename_i r1 hr
        rw [hr] at hop
        exact AccountsP_compose (Accounts_ok_elim hop) (AccountsP_ok_refl _ r1)
  · rw [if_neg hne]
    exact AccountsP_ok_refl ∅ r

theorem uploadBestK_accounts (ns dirpath : String) :
    ∀ (keys : List String) (acc : Finset String) (r : RemoteState),
    AccountsP r (uploadBestK ns dirpath keys acc r)
  | [], acc, r => AccountsP_ok_refl acc r
  | key :: rest, acc, r => by
    rw [uploadBestK]
    split
    · exact AccountsP_error_invalid r _
    · rename_i name hg
      have hop := runOp_accounts r (.upload (ns ++ "/" ++ name) key)
      split
      · rename_i e hr
        obtain ⟨en, er⟩ := e
        rw [hr] at hop
        obtain ⟨hδ, hst⟩ := Accounts_error_elim hop
        exact AccountsP_error_intro hδ hst
      · rename_i r1 hr
        rw [hr] at hop
        exact AccountsP_compose (Accounts_ok_elim hop)
          (uploadBestK_accounts ns dirpath rest (insert name acc) r1)

theorem deleteStale_accounts (ns : String) :
    ∀ (files : List String) (r : RemoteState),
    Accounts r (deleteStale ns files r)
  | [], r => Accounts_ok_refl r
  | f :: rest, r => by
    rw [deleteStale]
    have hop := runOp_accounts r (.delete (ns ++ "/" ++ f))
    split
    · rename_i e hr
      obtain ⟨en, er⟩ := e
      rw [hr] at hop
      exact hop
    · rename_i r1 hr
      rw [hr] at hop
      exact Accounts_compose (Accounts_ok_elim hop)
        (deleteStale_accounts ns rest r1)

theorem removeStale_accounts (ns : String) (fns : Finset String)
    (r : RemoteState) : Accounts r (removeStale ns fns r) := by
  rw [removeStale]
  have hop := runOp_accounts r (.existsCheck ns)
  split
  · rename_i e hr
    obtain ⟨en, er⟩ := e
    rw [hr] at hop
    exact hop
  · rename_i r1 hr
    rw [hr] at hop
    split
    · refine Accounts_compose (Accounts_ok_elim hop) ?_
      have hop2 := runOp_accounts r1 .getStructure
      split
      · rename_i e hr2
        obtain ⟨en, er⟩ := e
        rw [hr2] at hop2
        exact hop2
      · rename_i r2 hr2
        rw [hr2] at hop2
        exact Accounts_compose (Accounts_ok_elim hop2)
          (deleteStale_accounts ns _ r2)
    · exact Accounts_ok_intro (Accounts_ok_elim hop)

theorem logBestModelMeta_accounts (lg : NeptuneLogger) (cb : ModelCheckpoint)
    (r : RemoteState) : Accounts r (logBestModelMeta lg cb r) := by
  rw [logBestModelMeta]
  by_cases hbp : cb.best_model_path ≠ ""
  · rw [if_pos hbp]
    have hop := runOp_accounts r
      (.assign (construct_path lg "model/best_model_path"))
    split
    · rename_i e hr
      obtain ⟨en, er⟩ := e
      rw [hr] at hop
      exact hop
    · rename_i r1 hr
      rw [hr] at hop
      refine Accounts_compose (Accounts_ok_elim hop) ?_
      by_cases hbs : cb.best_model_score = true
      · rw [if_pos hbs]
        exact runOp_accounts r1 _
      · rw [if_neg hbs]
        exact Accounts_ok_refl r1
  · rw [if_neg hbp]
    show Accounts r (if cb.best_model_score = true then
      runOp r (.assign (construct_path lg "model/best_model_score"))
    else .ok r)
    by_cases hbs : cb.best_model_score = true
    · rw [if_pos hbs]
      exact runOp_accounts r _
    · rw [if_neg hbs]
      exact Accounts_ok_refl r

theorem after_save_checkpoint_accounts (lg : NeptuneLogger)
    (cb : ModelCheckpoint) (r : RemoteState) :
    Accounts r (after_save_checkpoint lg cb r) := by
  rw [after_save_checkpoint]
  by_cases hflag : lg.log_model_checkpoints = false
  · rw [if_pos hflag]
    exact Accounts_ok_refl r
  · rw [if_neg hflag]
    have h1 := saveLastModel_accounts
      (construct_path lg "model/checkpoints") cb r
    split
    · rename_i e hr1
      obtain ⟨en, er⟩ := e
      rw [hr1] at h1
      obtain ⟨hδ, hst⟩ := AccountsP_error_elim h1
      exact Accounts_error_intro hδ hst
    · rename_i file_names r1 hr1
      rw [hr1] at h1
      refine Accounts_compose (AccountsP_ok_elim h1) ?_
      have h2 := uploadBestK_accounts
        (construct_path lg "model/checkpoints") cb.dirpath
        cb.best_k_models file_names r1
      split
      · rename_i e hr2
        obtain ⟨en, er⟩ := e
        rw [hr2] at h2
        obtain ⟨hδ, hst⟩ := AccountsP_error_elim h2
        exact Accounts_error_intro hδ hst
      · rename_i file_names2 r2 hr2
        rw [hr2] at h2
        refine Accounts_compose (AccountsP_ok_elim h2) ?_
        have h3 := removeStale_accounts
          (construct_path lg "model/checkpoints") file_names2 r2
        split
        · rename_i e hr3
          obtain ⟨en, er⟩ := e
          rw [hr3] at h3
          exact h3
        · rename_i r3 hr3
          rw [hr3] at h3
          exact Accounts_compose (Accounts_ok_elim h3)
            (logBestModelMeta_accounts lg cb r3)

/-- C8: when a remote-store operation raises during `after_save_checkpoint`,
the error propagates unchanged to the caller (the surfaced error is exactly
the store's error for the operation at which the run stopped), with no retry
and no rollback: the failure point is the one the store reported
(`r.failAt = some n`, untouched by the run), the operation counter stands
exactly at the failing operation (each operation before it was performed
once, `n = r.opCount + δ.length`), and the final leaf set is exactly the
fold of the executed operations' effects over the initial leaves — nothing
already uploaded or deleted has been undone. -/
theorem claim_C8_store_error_propagates (lg : NeptuneLogger)
    (cb : ModelCheckpoint) (r : RemoteState) (n : Nat) (r' : RemoteState)
    (h : after_save_checkpoint lg cb r = .error (.storeError n, r')) :
    r.failAt = some n ∧ r'.failAt = some n ∧ r'.opCount = n ∧
    ∃ δ, r'.trace = r.trace ++ δ ∧ n = r.opCount + δ.length ∧
      r'.leaves = δ.foldl applyOp r.leaves := by
  have hacc := after_save_checkpoint_accounts lg cb r
  rw [h] at hacc
  obtain ⟨hδ, hst⟩ := Accounts_error_elim hacc
  obtain ⟨hfa, hoc⟩ := hst n rfl
  obtain ⟨hfeq, δ, htr, hcnt, hlv⟩ := hδ
  refine ⟨hfa, by rw [hfeq, hfa], hoc, δ, htr, ?_, hlv⟩
  rw [← hoc]
  exact hcnt

theorem claim_C8_witness :
    (⟨[], [], some 1, 0⟩ : RemoteState).failAt = some 1 ∧
    (⟨["training/model/checkpoints/a.pt"],
      [StoreOp.upload "training/model/checkpoints/a.pt" "/ckpt/a.pt"],
      some 1, 1⟩ : RemoteState).failAt = some 1 ∧
    (⟨["training/model/checkpoints/a.pt"],
      [StoreOp.upload "training/model/checkpoints/a.pt" "/ckpt/a.pt"],
      some 1, 1⟩ : RemoteState).opCount = 1 ∧
    ∃ δ, (⟨["training/model/checkpoints/a.pt"],
        [StoreOp.upload "training/model/checkpoints/a.pt" "/ckpt/a.pt"],
        some 1, 1⟩ : RemoteState).trace =
          (⟨[], [], some 1, 0⟩ : RemoteState).trace ++ δ ∧
      1 = (⟨[], [], some 1, 0⟩ : RemoteState).opCount + δ.length ∧
      (⟨["training/model/checkpoints/a.pt"],
        [StoreOp.upload "training/model/checkpoints/a.pt" "/ckpt/a.pt"],
        some 1, 1⟩ : RemoteState).leaves =
          δ.foldl applyOp (⟨[], [], some 1, 0⟩ : RemoteState).leaves :=
  claim_C8_store_error_propagates ⟨true, "training"⟩
    ⟨"/ckpt", "/ckpt/a.pt", ["/ckpt/b.pt"], "", false⟩
    ⟨[], [], some 1, 0⟩ 1
    ⟨["training/model/checkpoints/a.pt"],
      [StoreOp.upload "training/model/checkpoints/a.pt" "/ckpt/a.pt"],
      some 1, 1⟩ (by rfl)

/-! ## The nested-mapping enumeration (`_dict_paths`) -/

theorem joinSlash_cons_cons (p k : String) (l : List String) :
    joinSlash ((p ++ "/" ++ k) :: l) = p ++ "/" ++ joinSlash (k :: l) := by
  cases l with
  | nil => rfl
  | cons x xs =>
    show p ++ "/" ++ k ++ "/" ++ joinSlash (x :: xs) =
      p ++ "/" ++ (k ++ "/" ++ joinSlash (x :: xs))
    apply String.ext
    simp only [String.data_append, List.append_assoc]

theorem dict_paths_eq_leafSegs :
    ∀ (d : List (String × EVal)) (pib : Option String),
    dict_paths d pib = (leafSegs d).map (joinFrom pib)
  | [], pib => by
    cases pib <;> simp [dict_paths, leafSegs]
  | (k, .leaf) :: rest, pib => by
    cases pib with
    | none =>
      rw [dict_paths, leafSegs]
      simp [dict_paths_eq_leafSegs rest none, joinFrom, joinSlash]
    | some p =>
      rw [dict_paths, leafSegs]
      simp [dict_paths_eq_leafSegs rest (some p), joinFrom, joinSlash]
  | (k, .dict d') :: rest, pib => by
    cases pib with
    | none =>
      rw [dict_paths, leafSegs, dict_paths_eq_leafSegs d' (some k),
        dict_paths_eq_leafSegs rest none]
      simp only [List.map_append, List.map_map]
      congr 1
    | some p =>
      rw [dict_paths, leafSegs, dict_paths_eq_leafSegs d' (some (p ++ "/" ++ k)),
        dict_paths_eq_leafSegs rest (some p)]
      simp only [List.map_append, List.map_map]
      congr 1
      apply List.map_congr_left
      intro segs _
      show joinSlash ((p ++ "/" ++ k) :: segs) = joinSlash (p :: k :: segs)
      rw [joinSlash_cons_cons]
      rfl

theorem leafSegs_length :
    ∀ d : List (String × EVal), (leafSegs d).length = countLeaves d
  | [] => by
    simp [leafSegs, countLeaves]
  | (k, .leaf) :: rest => by
    rw [leafSegs, countLeaves]
    simp only [List.length_append, List.length_singleton,
      leafSegs_length rest]
  | (k, .dict d') :: rest => by
    rw [leafSegs, countLeaves]
    simp only [List.length_append, List.length_map,
      leafSegs_length rest, leafSegs_length d']

/-- C7: for every finite nested mapping in which the namespace path leads to
a sub-mapping `d`, the enumeration of previously uploaded names returns
exactly the set of slash-joined relative segment paths of the leaves
(non-mapping values) of that subtree, and `_dict_paths` yields exactly one
path per leaf and none for interior mapping nodes (its output length is the
leaf count).  Termination holds by construction: `dict_paths` is a total
structurally recursive function. -/
theorem claim_C7_enumeration (exp_structure : List (String × EVal))
    (ns : String) (d : List (String × EVal))
    (h : navigateStructure (.dict exp_structure) (splitSlash ns) =
      some (.dict d)) :
    get_full_model_names_from_exp_structure exp_structure ns =
      some (((leafSegs d).map joinSlash).toFinset) ∧
    (dict_paths d none).length = countLeaves d := by
  constructor
  · rw [get_full_model_names_from_exp_structure]
    simp only [h]
    rw [dict_paths_eq_leafSegs d none]
    have hj : joinFrom none = joinSlash := funext fun _ => rfl
    rw [hj]
  · rw [dict_paths_eq_leafSegs d none, List.length_map, leafSegs_length]

theorem claim_C7_witness :
    get_full_model_names_from_exp_structure
        [("training", .dict [("model", .dict [("checkpoints", .dict
          [("e1.pt", .leaf), ("sub", .dict [("e2.pt", .leaf)])])])])]
        "training/model/checkpoints" =
      some (((leafSegs [("e1.pt", EVal.leaf),
        ("sub", EVal.dict [("e2.pt", EVal.leaf)])]).map joinSlash).toFinset) ∧
    (dict_paths [("e1.pt", EVal.leaf),
      ("sub", EVal.dict [("e2.pt", EVal.leaf)])] none).length =
      countLeaves [("e1.pt", EVal.leaf),
        ("sub", EVal.dict [("e2.pt", EVal.leaf)])] :=
  claim_C7_enumeration _ "training/model/checkpoints"
    [("e1.pt", EVal.leaf), ("sub", EVal.dict [("e2.pt", EVal.leaf)])]
    (by rfl)

end NeptuneSync
